import Mathlib

set_option maxRecDepth 40000

/-!
Verification of the incremental-build profiler (kicker / dirty-set tracker,
build invoker, orchestrator, stats reducer and tabular reader).

File contents model the Python sources of the repository:
byte strings are `List Nat` (UTF-8 bytes), file systems are partial maps
from path strings to byte strings, and the random identifier stream used by
`FunctionKicker` is an explicit `Nat → String` parameter together with a
counter in the kicker state.
-/

/-- UTF-8 encoding of a single character, as a list of byte values. -/
def encodeChar (c : Char) : List Nat :=
  let n := c.toNat
  if n < 128 then [n]
  else if n < 2048 then [192 + n / 64, 128 + n % 64]
  else if n < 65536 then [224 + n / 4096, 128 + n / 64 % 64, 128 + n % 64]
  else [240 + n / 262144, 128 + n / 4096 % 64, 128 + n / 64 % 64, 128 + n % 64]

/-- UTF-8 encoding of a string (Python `str.encode("utf-8")`). -/
def encodeStr (s : String) : List Nat := s.data.flatMap encodeChar

theorem encodeStr_append (a b : String) :
    encodeStr (a ++ b) = encodeStr a ++ encodeStr b := by
  simp [encodeStr]

/-- ASCII letter test, mirroring membership in Python `string.ascii_letters`. -/
def isAsciiLetter (c : Char) : Bool :=
  (65 ≤ c.toNat && c.toNat ≤ 90) || (97 ≤ c.toNat && c.toNat ≤ 122)

theorem encodeChar_ascii {c : Char} (h : isAsciiLetter c = true) :
    encodeChar c = [c.toNat] := by
  simp only [isAsciiLetter, Bool.or_eq_true, Bool.and_eq_true, decide_eq_true_eq] at h
  have : c.toNat < 128 := by omega
  simp [encodeChar, this]

theorem flatMap_encodeChar_length_of_ascii (l : List Char)
    (h : ∀ c ∈ l, isAsciiLetter c = true) :
    (l.flatMap encodeChar).length = l.length := by
  induction l with
  | nil => rfl
  | cons c cs ih =>
      simp only [List.flatMap_cons, List.length_append, List.length_cons]
      rw [encodeChar_ascii (h c (by simp))]
      have := ih (fun x hx => h x (by simp [hx]))
      simp [this]; omega

theorem encodeStr_length_of_ascii (s : String)
    (h : ∀ c ∈ s.data, isAsciiLetter c = true) :
    (encodeStr s).length = s.data.length :=
  flatMap_encodeChar_length_of_ascii s.data h

/-!
## Path extension handling

`os.path.splitext(file)[1].lstrip(".")` from `function_kicker.py`:
the extension is the part of the basename after its last dot, provided a
non-dot character precedes that dot within the basename; the leading dot
is then stripped.
-/

/-- The basename of a POSIX path: everything after the last slash. -/
def basenamePart (l : List Char) : List Char :=
  (l.reverse.takeWhile (fun c => c ≠ '/')).reverse

/-- `os.path.splitext(file)[1].lstrip(".")`: the file extension without its
dot, or `""` when there is none. -/
def pyExtRaw (file : String) : String :=
  let base := basenamePart file.data
  if base.any (fun c => c = '.') then
    let after := (base.reverse.takeWhile (fun c => c ≠ '.')).reverse
    let before := base.take (base.length - after.length - 1)
    if before.any (fun c => c ≠ '.') then String.mk after else ""
  else ""

/-!
## FunctionKicker content generation (`function_kicker.py`)
-/

def KICK_MARKER : String := "_kicked_"

def FUNCTION_LENGTH : Nat := 100

/-- The extensions carrying a function template (`__function_templates` keys). -/
def templateExts : List String := ["py", "java", "kt"]

/-- `__function_templates[ext].format(marker=KICK_MARKER, name=name)`. -/
def renderTemplate (ext : String) (name : String) : String :=
  if ext = "py" then
    "def _" ++ KICK_MARKER ++ "_" ++ name ++ "():\n    pass"
  else if ext = "java" then
    "public static void _" ++ KICK_MARKER ++ "_" ++ name ++ "() \x7b\x7d"
  else if ext = "kt" then
    "fun _" ++ KICK_MARKER ++ "_" ++ name ++ "() \x7b\x7d"
  else ""

/-- `str.lower()` restricted to ASCII case mapping, applied characterwise. -/
def pyLower (s : String) : String := String.mk (s.data.map Char.toLower)

/-- Python exceptions raised (or suppressed) by the profiler code. -/
inductive PyErr where
  | valueError (msg : String)
  | fileNotFound
  | ioError
  | runtimeError (msg : String)
deriving DecidableEq

/-- `FunctionKicker._validate_file_type`. -/
def validateFileType (file : String) : Except PyErr Unit :=
  let ext := pyExtRaw file
  if ext = "" then .error (.valueError "File must have an extension")
  else if pyLower ext ∈ templateExts then .ok ()
  else .error (.valueError ("No function template defined for file extension: " ++ ext))

/-- `true` exactly when `_validate_file_type` succeeds on `file`. -/
def supportedFile (file : String) : Bool :=
  match validateFileType file with
  | .ok _ => true
  | .error _ => false

theorem validate_ok_of_supported {file : String} (h : supportedFile file = true) :
    validateFileType file = .ok () := by
  unfold supportedFile at h
  cases hv : validateFileType file with
  | ok u => cases u; rfl
  | error e => rw [hv] at h; simp at h

/-- A name drawn by `random.choices(string.ascii_letters, k=FUNCTION_LENGTH)`:
exactly `FUNCTION_LENGTH` ASCII letters. -/
def validName (n : String) : Prop :=
  n.data.length = FUNCTION_LENGTH ∧ ∀ c ∈ n.data, isAsciiLetter c = true

instance (n : String) : Decidable (validName n) := by
  unfold validName; infer_instance

/-!
## Kicker state (`base_kicker.py`)

The state of a `FunctionKicker` object together with the file system it acts
on.  The random generator is modelled by an external stream
`names : Nat → String` indexed by the counter `ctr`; every call to
`random.choices` consumes the next stream element.
-/

/-- File system plus `BaseKicker` object state. -/
structure KState where
  fs : String → Option (List Nat)
  dirty : List String
  ctr : Nat

/-- Point update of a file-system map. -/
def fsUpdate (fs : String → Option (List Nat)) (p : String) (v : Option (List Nat)) :
    String → Option (List Nat) :=
  fun q => if q = p then v else fs q

@[simp] theorem fsUpdate_same (fs : String → Option (List Nat)) (p : String)
    (v : Option (List Nat)) : fsUpdate fs p v p = v := by
  simp [fsUpdate]

theorem fsUpdate_other (fs : String → Option (List Nat)) (p q : String)
    (v : Option (List Nat)) (h : q ≠ p) : fsUpdate fs p v q = fs q := by
  simp [fsUpdate, h]

/-- `FunctionKicker._generate_content`: validates the type, then renders the
template for the lowered extension with a fresh random name. -/
def generateContent (names : Nat → String) (s : KState) (file : String) :
    Except PyErr (String × KState) :=
  match validateFileType file with
  | .error e => .error e
  | .ok _ =>
      .ok (renderTemplate (pyLower (pyExtRaw file)) (names s.ctr),
           { s with ctr := s.ctr + 1 })

/-- `BaseKicker._remove_appended_content`: recompute the expected byte length
(two newlines plus regenerated content) and truncate it from the file's end;
all errors are printed and suppressed. -/
def removeAppendedContent (names : Nat → String) (s : KState) (file : String) : KState :=
  match generateContent names s file with
  | .error _ => s
  | .ok (sample, s1) =>
      let contentBytesLen := 2 + (encodeStr sample).length
      match s1.fs file with
      | none => s1
      | some bytes =>
          if bytes.length < contentBytesLen then s1
          else { s1 with
                   fs := fsUpdate s1.fs file
                     (some (bytes.take (bytes.length - contentBytesLen))) }

/-- `BaseKicker._append_content`: reverse a pending mutation when the file is
dirty, require existence, append `"\n" ++ content ++ "\n"`, mark dirty.
The returned `Option PyErr` is the raised exception, if any; the returned
state is the object/file state at raise time. -/
def appendContent (names : Nat → String) (s : KState) (file : String)
    (content : String) : KState × Option PyErr :=
  let s1 := if file ∈ s.dirty then removeAppendedContent names s file else s
  match s1.fs file with
  | none => (s1, some .fileNotFound)
  | some bytes =>
      ({ s1 with
           fs := fsUpdate s1.fs file (some (bytes ++ encodeStr ("\n" ++ content ++ "\n"))),
           dirty := if file ∈ s1.dirty then s1.dirty else file :: s1.dirty }, none)

/-- `BaseKicker.append`. -/
def kickerAppend (names : Nat → String) (s : KState) (file : String) :
    KState × Option PyErr :=
  match validateFileType file with
  | .error e => (s, some e)
  | .ok _ =>
      match generateContent names s file with
      | .error e => (s, some e)
      | .ok (content, s1) => appendContent names s1 file content

/-- `BaseKicker.cleanup`. -/
def kickerCleanup (names : Nat → String) (s : KState) (file : String) : KState :=
  removeAppendedContent names s file

/-- `KickerInterface.cleanup_all`: cleanup each file of the iterable in turn. -/
def cleanupAll (names : Nat → String) (s : KState) : List String → KState
  | [] => s
  | f :: rest => cleanupAll names (kickerCleanup names s f) rest

/-- `BaseKicker.cleanup_all_dirty`: cleanup every dirty file, then clear the
dirty set unconditionally. -/
def cleanupAllDirty (names : Nat → String) (s : KState) : KState :=
  let s1 := cleanupAll names s s.dirty
  { s1 with dirty := [] }

/-!
## Length determinism of the generated content

`_remove_appended_content` recomputes the removal length from freshly
generated content; correctness rests on every generated name having the
same byte length (`FUNCTION_LENGTH` ASCII letters).
-/

/-- A fixed valid name used to express the expected removal length. -/
def dummyName : String := String.mk (List.replicate FUNCTION_LENGTH 'a')

/-- Expected removal length for a file: two newline bytes plus the byte
length of the regenerated template content for its (lowered) extension. -/
def removalLenOf (file : String) : Nat :=
  2 + (encodeStr (renderTemplate (pyLower (pyExtRaw file)) dummyName)).length

/-- The exact byte suffix appended to `file` when the name stream stands at
index `i`: newline, rendered content, newline. -/
def padOf (names : Nat → String) (i : Nat) (file : String) : List Nat :=
  encodeStr ("\n" ++ renderTemplate (pyLower (pyExtRaw file)) (names i) ++ "\n")

theorem validName_dummy : validName dummyName := by decide

theorem encLen_concat (a b n : String) (hn : validName n) :
    (encodeStr (a ++ n ++ b)).length =
      (encodeStr a).length + FUNCTION_LENGTH + (encodeStr b).length := by
  rcases hn with ⟨hl, ha⟩
  rw [encodeStr_append, encodeStr_append]
  simp only [List.length_append, encodeStr_length_of_ascii n ha, hl]

theorem renderTemplate_length (e n : String) (hn : validName n) :
    (encodeStr (renderTemplate e n)).length =
      (encodeStr (renderTemplate e dummyName)).length := by
  by_cases h1 : e = "py"
  · simp only [renderTemplate, h1, String.reduceEq, reduceIte]
    rw [encLen_concat _ _ _ hn, encLen_concat _ _ _ validName_dummy]
  · by_cases h2 : e = "java"
    · simp only [renderTemplate, h1, h2, String.reduceEq, reduceIte, if_neg h1]
      rw [encLen_concat _ _ _ hn, encLen_concat _ _ _ validName_dummy]
    · by_cases h3 : e = "kt"
      · simp only [renderTemplate, h1, h2, h3, String.reduceEq, reduceIte, if_neg h1, if_neg h2]
        rw [encLen_concat _ _ _ hn, encLen_concat _ _ _ validName_dummy]
      · simp only [renderTemplate, if_neg h1, if_neg h2, if_neg h3]

theorem removal_len_eq (file n : String) (hn : validName n) :
    2 + (encodeStr (renderTemplate (pyLower (pyExtRaw file)) n)).length =
      removalLenOf file := by
  unfold removalLenOf
  rw [renderTemplate_length _ _ hn]

theorem padOf_length (names : Nat → String) (i : Nat) (file : String)
    (hn : validName (names i)) : (padOf names i file).length = removalLenOf file := by
  unfold padOf
  rw [encodeStr_append, encodeStr_append]
  have h1 : (encodeStr "\n").length = 1 := by decide
  simp only [List.length_append, h1]
  have := removal_len_eq file (names i) hn
  omega

/-!
## Characterization of the kicker operations
-/

theorem generateContent_eq (names : Nat → String) (s : KState) (file : String)
    (h : supportedFile file = true) :
    generateContent names s file =
      .ok (renderTemplate (pyLower (pyExtRaw file)) (names s.ctr),
           { s with ctr := s.ctr + 1 }) := by
  unfold generateContent
  rw [validate_ok_of_supported h]

theorem remove_unsupported (names : Nat → String) (s : KState) (file : String)
    (h : supportedFile file = false) :
    removeAppendedContent names s file = s := by
  unfold removeAppendedContent generateContent
  unfold supportedFile at h
  cases hv : validateFileType file with
  | ok u => rw [hv] at h; simp at h
  | error e => simp

theorem remove_missing (names : Nat → String) (s : KState) (file : String)
    (hsup : supportedFile file = true) (hfs : s.fs file = none) :
    removeAppendedContent names s file = { s with ctr := s.ctr + 1 } := by
  unfold removeAppendedContent
  rw [generateContent_eq names s file hsup]
  simp [hfs]

theorem remove_small (names : Nat → String) (s : KState) (file : String)
    (b : List Nat) (hsup : supportedFile file = true)
    (hn : validName (names s.ctr)) (hfs : s.fs file = some b)
    (hsmall : b.length < removalLenOf file) :
    removeAppendedContent names s file = { s with ctr := s.ctr + 1 } := by
  unfold removeAppendedContent
  rw [generateContent_eq names s file hsup]
  simp only [hfs]
  rw [removal_len_eq file (names s.ctr) hn]
  simp [hsmall]

theorem remove_big (names : Nat → String) (s : KState) (file : String)
    (b : List Nat) (hsup : supportedFile file = true)
    (hn : validName (names s.ctr)) (hfs : s.fs file = some b)
    (hbig : removalLenOf file ≤ b.length) :
    removeAppendedContent names s file =
      { s with fs := fsUpdate s.fs file (some (b.take (b.length - removalLenOf file))),
               ctr := s.ctr + 1 } := by
  unfold removeAppendedContent
  rw [generateContent_eq names s file hsup]
  simp only [hfs]
  rw [removal_len_eq file (names s.ctr) hn]
  simp [Nat.not_lt.mpr hbig]

theorem remove_restore (names : Nat → String) (s : KState) (file : String)
    (ob pad : List Nat) (hsup : supportedFile file = true)
    (hn : validName (names s.ctr)) (hfs : s.fs file = some (ob ++ pad))
    (hpad : pad.length = removalLenOf file) :
    removeAppendedContent names s file =
      { s with fs := fsUpdate s.fs file (some ob), ctr := s.ctr + 1 } := by
  rw [remove_big names s file (ob ++ pad) hsup hn hfs
        (by simp [List.length_append, hpad])]
  have : (ob ++ pad).length - removalLenOf file = ob.length := by
    simp [List.length_append, hpad]
  rw [this, List.take_left]

theorem kickerAppend_unsupported (names : Nat → String) (s : KState) (file : String)
    (h : supportedFile file = false) :
    ∃ msg, kickerAppend names s file = (s, some (.valueError msg)) := by
  unfold kickerAppend
  unfold supportedFile at h
  cases hv : validateFileType file with
  | ok u => rw [hv] at h; simp at h
  | error e =>
      have he : ∃ msg, e = PyErr.valueError msg := by
        unfold validateFileType at hv
        by_cases h0 : pyExtRaw file = ""
        · simp only [h0, String.reduceEq, reduceIte] at hv
          exact ⟨_, (Except.error.inj hv).symm⟩
        · by_cases h1 : (pyLower (pyExtRaw file)) ∈ templateExts
          · simp [h0, h1] at hv
          · simp only [h0, h1, String.reduceEq, reduceIte, if_neg h0, if_neg h1] at hv
            exact ⟨_, (Except.error.inj hv).symm⟩
      obtain ⟨msg, rfl⟩ := he
      exact ⟨msg, rfl⟩

theorem kickerAppend_clean (names : Nat → String) (s : KState) (file : String)
    (ob : List Nat) (hsup : supportedFile file = true)
    (hfs : s.fs file = some ob) (hnd : file ∉ s.dirty) :
    kickerAppend names s file =
      ({ s with fs := fsUpdate s.fs file (some (ob ++ padOf names s.ctr file)),
                dirty := file :: s.dirty, ctr := s.ctr + 1 }, none) := by
  unfold kickerAppend
  rw [validate_ok_of_supported hsup, generateContent_eq names s file hsup]
  unfold appendContent
  simp only [hnd, reduceIte, if_neg hnd, hfs]
  rfl

theorem kickerAppend_missing (names : Nat → String) (s : KState) (file : String)
    (hsup : supportedFile file = true) (hfs : s.fs file = none) :
    ∃ k, kickerAppend names s file = ({ s with ctr := k }, some .fileNotFound) := by
  unfold kickerAppend
  rw [validate_ok_of_supported hsup, generateContent_eq names s file hsup]
  unfold appendContent
  by_cases hd : file ∈ s.dirty
  · refine ⟨s.ctr + 2, ?_⟩
    have hrm := remove_missing names { s with ctr := s.ctr + 1 } file hsup hfs
    simp only [hd, reduceIte, ite_true, if_true, hrm, hfs]
  · refine ⟨s.ctr + 1, ?_⟩
    simp only [hd, reduceIte, ite_false, if_false, if_neg hd, hfs]

theorem kickerAppend_dirty (names : Nat → String) (s : KState) (file : String)
    (ob pad : List Nat) (hsup : supportedFile file = true)
    (hn1 : validName (names (s.ctr + 1)))
    (hfs : s.fs file = some (ob ++ pad)) (hpad : pad.length = removalLenOf file)
    (hd : file ∈ s.dirty) :
    kickerAppend names s file =
      ({ s with fs := fsUpdate (fsUpdate s.fs file (some ob)) file
                        (some (ob ++ padOf names s.ctr file)),
                ctr := s.ctr + 2 }, none) := by
  unfold kickerAppend
  rw [validate_ok_of_supported hsup, generateContent_eq names s file hsup]
  unfold appendContent
  have hrm := remove_restore names { s with ctr := s.ctr + 1 } file ob pad hsup hn1 hfs hpad
  simp only [hd, reduceIte, ite_true, if_true, hrm, fsUpdate_same]
  rfl

/-!
## Claim theorems for the mutator / dirty-set tracker
-/

/-- Claim C1: for every file with a supported extension and arbitrary original
byte content (the file not carrying a pending mutation), `append` followed
immediately by `cleanup` restores the file to byte-identical original content,
although cleanup regenerates the content with a fresh random identifier. -/
theorem c1_append_then_cleanup_restores (names : Nat → String) (s : KState)
    (file : String) (orig : List Nat)
    (hnames : ∀ i, validName (names i))
    (hsup : supportedFile file = true)
    (hfs : s.fs file = some orig)
    (hnd : file ∉ s.dirty) :
    (kickerAppend names s file).2 = none ∧
    (kickerCleanup names (kickerAppend names s file).1 file).fs file = some orig := by
  rw [kickerAppend_clean names s file orig hsup hfs hnd]
  refine ⟨rfl, ?_⟩
  unfold kickerCleanup
  rw [remove_restore names _ file orig (padOf names s.ctr file) hsup (hnames _)
        (by exact fsUpdate_same _ _ _) (padOf_length names s.ctr file (hnames _))]
  exact fsUpdate_same _ _ _

/-- Claim C3: appending twice in succession and then cleaning up once restores
the original content, because re-append internally reverses the first
mutation (the file being dirty) before appending again. -/
theorem c3_double_append_then_cleanup_restores (names : Nat → String) (s : KState)
    (file : String) (orig : List Nat)
    (hnames : ∀ i, validName (names i))
    (hsup : supportedFile file = true)
    (hfs : s.fs file = some orig)
    (hnd : file ∉ s.dirty) :
    (kickerAppend names s file).2 = none ∧
    (kickerAppend names (kickerAppend names s file).1 file).2 = none ∧
    (kickerCleanup names (kickerAppend names (kickerAppend names s file).1 file).1 file).fs file
      = some orig := by
  rw [kickerAppend_clean names s file orig hsup hfs hnd]
  have h2 := kickerAppend_dirty names
      { s with fs := fsUpdate s.fs file (some (orig ++ padOf names s.ctr file)),
               dirty := file :: s.dirty, ctr := s.ctr + 1 }
      file orig (padOf names s.ctr file) hsup (hnames _)
      (by exact fsUpdate_same _ _ _) (padOf_length names s.ctr file (hnames _))
      (List.mem_cons_self _ _)
  rw [h2]
  refine ⟨rfl, rfl, ?_⟩
  unfold kickerCleanup
  rw [remove_restore names _ file orig (padOf names (s.ctr + 1) file) hsup (hnames _)
        (by exact fsUpdate_same _ _ _) (padOf_length names (s.ctr + 1) file (hnames _))]
  exact fsUpdate_same _ _ _

/-- Claim C4: cleanup on a supported file whose size is strictly smaller than
the recomputed expected removal length leaves the file system and dirty set
completely unchanged (warning only, no exception, no truncation). -/
theorem c4_cleanup_small_file_untouched (names : Nat → String) (s : KState)
    (file : String) (b : List Nat)
    (hnames : ∀ i, validName (names i))
    (hsup : supportedFile file = true)
    (hfs : s.fs file = some b)
    (hsmall : b.length < removalLenOf file) :
    (kickerCleanup names s file).fs = s.fs ∧
    (kickerCleanup names s file).dirty = s.dirty := by
  unfold kickerCleanup
  rw [remove_small names s file b hsup (hnames s.ctr) hfs hsmall]
  exact ⟨rfl, rfl⟩

/-- Claim C10: the public `cleanup` never consults the dirty set: on a
supported file at least as large as the recomputed removal length it
truncates that many bytes from the end even though the file was never
appended to, and it never removes the file from the dirty set. -/
theorem c10_cleanup_ignores_dirty_set (names : Nat → String) (s : KState)
    (file : String) (b : List Nat)
    (hnames : ∀ i, validName (names i))
    (hsup : supportedFile file = true)
    (hfs : s.fs file = some b)
    (hnd : file ∉ s.dirty)
    (hbig : removalLenOf file ≤ b.length) :
    (kickerCleanup names s file).fs file = some (b.take (b.length - removalLenOf file)) ∧
    (kickerCleanup names s file).dirty = s.dirty := by
  unfold kickerCleanup
  rw [remove_big names s file b hsup (hnames s.ctr) hfs hbig]
  exact ⟨fsUpdate_same _ _ _, rfl⟩

/-- Claim C6: `append` on a file with a missing or unsupported extension
raises a `ValueError` before touching the file or dirty set; on a supported
file that does not exist it raises `FileNotFoundError`, propagated to the
caller, with file system and dirty set unchanged. -/
theorem c6_append_error_paths (names : Nat → String) (s : KState) (file : String) :
    (supportedFile file = false →
      ∃ msg, kickerAppend names s file = (s, some (PyErr.valueError msg))) ∧
    (supportedFile file = true → s.fs file = none →
      (kickerAppend names s file).2 = some PyErr.fileNotFound ∧
      (kickerAppend names s file).1.fs = s.fs ∧
      (kickerAppend names s file).1.dirty = s.dirty) := by
  constructor
  · exact kickerAppend_unsupported names s file
  · intro hsup hfs
    obtain ⟨k, hk⟩ := kickerAppend_missing names s file hsup hfs
    rw [hk]
    exact ⟨rfl, rfl, rfl⟩

theorem cleanupAll_fs_of_missing (names : Nat → String) (l : List String) :
    ∀ s : KState, (∀ f ∈ l, s.fs f = none) →
      ∀ g, (cleanupAll names s l).fs g = s.fs g := by
  induction l with
  | nil => intro s _ g; rfl
  | cons f rest ih =>
      intro s h g
      have hfs : s.fs f = none := h f (by simp)
      have hstep : (kickerCleanup names s f).fs = s.fs := by
        unfold kickerCleanup
        by_cases hsup : supportedFile f = true
        · rw [remove_missing names s f hsup hfs]
        · rw [remove_unsupported names s f (by simpa using hsup)]
      rw [cleanupAll, ih (kickerCleanup names s f)
            (fun x hx => by rw [hstep]; exact h x (by simp [hx])) g, hstep]

/-- Claim C5: `cleanup_all_dirty` leaves the dirty set empty unconditionally,
and per-file cleanup errors (here: every dirty file missing) are suppressed,
never propagated — the file system is simply left as it was. -/
theorem c5_cleanup_all_dirty_clears (names : Nat → String) (s : KState) :
    (cleanupAllDirty names s).dirty = [] ∧
    ((∀ f ∈ s.dirty, s.fs f = none) →
      ∀ g, (cleanupAllDirty names s).fs g = s.fs g) := by
  refine ⟨rfl, ?_⟩
  intro h g
  exact cleanupAll_fs_of_missing names s.dirty s h g

/-!
## Concrete witness fixtures
-/

/-- A constant stream of valid random names. -/
def wNames : Nat → String := fun _ => dummyName

/-- A file system holding a two-byte python file. -/
def wS : KState :=
  { fs := fun p => if p = "a.py" then some [65, 66] else none, dirty := [], ctr := 0 }

/-- A kicker state whose only dirty file is missing from the file system. -/
def wS2 : KState := { fs := fun _ => none, dirty := ["m.py"], ctr := 0 }

/-- A file system holding a python file larger than the removal length. -/
def wSBig : KState :=
  { fs := fun p => if p = "c.py" then some (List.replicate 130 7) else none,
    dirty := [], ctr := 0 }

theorem c1_witness :
    (kickerAppend wNames wS "a.py").2 = none ∧
    (kickerCleanup wNames (kickerAppend wNames wS "a.py").1 "a.py").fs "a.py"
      = some [65, 66] :=
  c1_append_then_cleanup_restores wNames wS "a.py" [65, 66]
    (fun _ => validName_dummy) (by decide) (by decide) (by decide)

theorem c3_witness :
    (kickerAppend wNames wS "a.py").2 = none ∧
    (kickerAppend wNames (kickerAppend wNames wS "a.py").1 "a.py").2 = none ∧
    (kickerCleanup wNames
        (kickerAppend wNames (kickerAppend wNames wS "a.py").1 "a.py").1 "a.py").fs "a.py"
      = some [65, 66] :=
  c3_double_append_then_cleanup_restores wNames wS "a.py" [65, 66]
    (fun _ => validName_dummy) (by decide) (by decide) (by decide)

theorem c4_witness :
    (kickerCleanup wNames wS "a.py").fs = wS.fs ∧
    (kickerCleanup wNames wS "a.py").dirty = wS.dirty :=
  c4_cleanup_small_file_untouched wNames wS "a.py" [65, 66]
    (fun _ => validName_dummy) (by decide) (by decide) (by decide)

theorem c10_witness :
    (kickerCleanup wNames wSBig "c.py").fs "c.py"
      = some ((List.replicate 130 7).take ((List.replicate 130 7).length - removalLenOf "c.py")) ∧
    (kickerCleanup wNames wSBig "c.py").dirty = wSBig.dirty :=
  c10_cleanup_ignores_dirty_set wNames wSBig "c.py" (List.replicate 130 7)
    (fun _ => validName_dummy) (by decide) (by decide) (by decide) (by decide)

theorem c6_witness :
    (∃ msg, kickerAppend wNames wS "nofile" = (wS, some (PyErr.valueError msg))) ∧
    ((kickerAppend wNames wS "b.py").2 = some PyErr.fileNotFound ∧
     (kickerAppend wNames wS "b.py").1.fs = wS.fs ∧
     (kickerAppend wNames wS "b.py").1.dirty = wS.dirty) :=
  ⟨(c6_append_error_paths wNames wS "nofile").1 (by decide),
   (c6_append_error_paths wNames wS "b.py").2 (by decide) (by decide)⟩

theorem c5_witness :
    (cleanupAllDirty wNames wS2).dirty = [] ∧
    (cleanupAllDirty wNames wS2).fs "m.py" = wS2.fs "m.py" :=
  ⟨(c5_cleanup_all_dirty_clears wNames wS2).1,
   (c5_cleanup_all_dirty_clears wNames wS2).2 (by decide) "m.py"⟩

/-!
## Build invoker (`build_script.py`, class `BuildSys`)

One external invocation is summarized by its observable outcome: exit code,
captured output, and wall-clock duration.  `build` prints a header, the
captured output and a per-call duration line; the printed lines form the
trace through which each call's duration is observable.  A non-zero exit
raises `RuntimeError`.
-/

structure ExecOutcome where
  returncode : Int
  stdout : String
  duration : ℚ

/-- `Except` success test. -/
def exceptOk {ε α : Type} : Except ε α → Bool
  | .ok _ => true
  | .error _ => false

/-- `BuildSys.build`: the printed trace and either the elapsed duration or
the raised `RuntimeError`. -/
def buildSysBuild (bsName : String) (o : ExecOutcome) : List String × Except PyErr ℚ :=
  let pre := ["Building with " ++ bsName ++ "...", o.stdout]
  if o.returncode ≠ 0 then
    (pre, .error (.runtimeError (bsName ++ " build failed: " ++ o.stdout)))
  else
    (pre ++ [bsName ++ " build time: " ++ toString o.duration ++ " seconds\n"],
     .ok o.duration)

/-- One loop step of `build_n_times`: print header, run `build`; once an
exception has been raised, no further work happens. -/
def buildNStep (bsName : String) (oc : Nat → ExecOutcome) (n : Nat)
    (acc : List String × Bool) (i : Nat) : List String × Bool :=
  match acc.2 with
  | false => acc
  | true =>
      let hdr := bsName ++ " build " ++ toString (i + 1) ++ " of " ++ toString n ++ ":"
      let r := buildSysBuild bsName (oc i)
      (acc.1 ++ [hdr] ++ r.1, exceptOk r.2)

/-- `BuildSys.build_n_times`: n sequential `build` calls, each preceded by a
progress header; an exception aborts the remaining iterations.  Returns the
accumulated print trace and whether all builds completed. -/
def buildNTimes (bsName : String) (oc : Nat → ExecOutcome) (n : Nat) :
    List String × Bool :=
  (List.range n).foldl (buildNStep bsName oc n) ([], true)

/-- The full trace of the i-th successful build call inside `build_n_times`. -/
def buildCallTrace (bsName : String) (oc : Nat → ExecOutcome) (n i : Nat) : List String :=
  [bsName ++ " build " ++ toString (i + 1) ++ " of " ++ toString n ++ ":",
   "Building with " ++ bsName ++ "...", (oc i).stdout,
   bsName ++ " build time: " ++ toString (oc i).duration ++ " seconds
"]

theorem buildSysBuild_ok (bsName : String) (o : ExecOutcome) (h : o.returncode = 0) :
    buildSysBuild bsName o =
      (["Building with " ++ bsName ++ "...", o.stdout,
        bsName ++ " build time: " ++ toString o.duration ++ " seconds
"],
       .ok o.duration) := by
  simp [buildSysBuild, h]

theorem buildNStep_ok (bsName : String) (oc : Nat → ExecOutcome) (n : Nat)
    (acc : List String) (i : Nat) (h : (oc i).returncode = 0) :
    buildNStep bsName oc n (acc, true) i =
      (acc ++ buildCallTrace bsName oc n i, true) := by
  unfold buildNStep
  rw [buildSysBuild_ok bsName (oc i) h]
  simp [exceptOk, buildCallTrace]

theorem buildNTimes_foldl (bsName : String) (oc : Nat → ExecOutcome) (n : Nat)
    (l : List Nat) (hl : ∀ i ∈ l, (oc i).returncode = 0) :
    ∀ acc : List String,
      l.foldl (buildNStep bsName oc n) (acc, true) =
        (acc ++ l.flatMap (buildCallTrace bsName oc n), true) := by
  induction l with
  | nil => intro acc; simp
  | cons i rest ih =>
      intro acc
      rw [List.foldl_cons, buildNStep_ok bsName oc n acc i (hl i (by simp)),
          ih (fun x hx => hl x (by simp [hx]))]
      simp

/-- Claim C7: `build_n_times` performs n sequential build invocations; each
call's duration is independently observable (returned by `build` and printed
per call), and the invoker performs no aggregation over the n durations:
the trace is exactly the concatenation of the n per-call traces in order. -/
theorem c7_build_n_times_sequential (bsName : String) (oc : Nat → ExecOutcome) (n : Nat)
    (h : ∀ i, i < n → (oc i).returncode = 0) :
    (∀ o : ExecOutcome, o.returncode = 0 →
        (buildSysBuild bsName o).2 = .ok o.duration) ∧
    buildNTimes bsName oc n =
      ((List.range n).flatMap (buildCallTrace bsName oc n), true) := by
  constructor
  · intro o ho
    rw [buildSysBuild_ok bsName o ho]
  · unfold buildNTimes
    rw [buildNTimes_foldl bsName oc n (List.range n)
          (fun i hi => h i (List.mem_range.mp hi)) []]
    simp

/-- Outcome stream for the C7 witness: always-successful builds. -/
def wOc : Nat → ExecOutcome := fun i => { returncode := 0, stdout := "out", duration := i }

theorem c7_witness :
    (∀ o : ExecOutcome, o.returncode = 0 →
        (buildSysBuild "Bazel" o).2 = .ok o.duration) ∧
    buildNTimes "Bazel" wOc 2 =
      ((List.range 2).flatMap (buildCallTrace "Bazel" wOc 2), true) :=
  c7_build_n_times_sequential "Bazel" wOc 2 (fun _ _ => rfl)

/-!
## Stats reducer (`build_html_visualiser.py`, `create_summary_stats`)

Durations are modelled as exact rationals; the sample standard deviation is
the only irrational quantity and lives in `ℝ`.
-/

/-- `statistics.mean`. -/
def pyMean (xs : List ℚ) : ℚ := xs.sum / (xs.length : ℚ)

/-- `sorted(xs)`. -/
def pySorted (xs : List ℚ) : List ℚ := List.insertionSort (· ≤ ·) xs

/-- `statistics.median`: middle element of the sorted list, or the average of
the two middle elements for even length. -/
def pyMedian (xs : List ℚ) : ℚ :=
  let s := pySorted xs
  let n := xs.length
  if n % 2 = 1 then s.getD (n / 2) 0
  else (s.getD (n / 2 - 1) 0 + s.getD (n / 2) 0) / 2

/-- `min(xs)` for non-empty `xs` (0 as a dummy on the empty list). -/
def pyMinList : List ℚ → ℚ
  | [] => 0
  | x :: xs => xs.foldl min x

/-- `max(xs)` for non-empty `xs` (0 as a dummy on the empty list). -/
def pyMaxList : List ℚ → ℚ
  | [] => 0
  | x :: xs => xs.foldl max x

/-- `statistics.stdev`: sample standard deviation. -/
noncomputable def pyStdev (xs : List ℚ) : ℝ :=
  Real.sqrt ((xs.map (fun x => ((x : ℝ) - (pyMean xs : ℝ)) ^ 2)).sum /
    ((xs.length : ℝ) - 1))

/-- One entry of the `create_summary_stats` result dictionary. -/
structure SummaryStats where
  mean : ℚ
  median : ℚ
  min : ℚ
  max : ℚ
  std_dev : ℝ
  count : ℕ

/-- The per-build-system record of `create_summary_stats`. -/
noncomputable def summaryOf (times : List ℚ) : SummaryStats :=
  { mean := pyMean times
    median := pyMedian times
    min := pyMinList times
    max := pyMaxList times
    std_dev := if 1 < times.length then pyStdev times else 0
    count := times.length }

/-- `create_summary_stats`: map `summaryOf` over every build system. -/
noncomputable def create_summary_stats (build_data : List (String × List ℚ)) :
    List (String × SummaryStats) :=
  build_data.map (fun p => (p.1, summaryOf p.2))

theorem foldl_min_mem (xs : List ℚ) : ∀ a : ℚ, xs.foldl min a ∈ a :: xs := by
  induction xs with
  | nil => intro a; simp
  | cons b t ih =>
      intro a
      rw [List.foldl_cons]
      rcases List.mem_cons.mp (ih (min a b)) with h | h
      · rcases min_choice a b with hm | hm <;> rw [hm] at h ⊢ <;> simp [h]
      · simp [List.mem_cons.mpr (Or.inr (List.mem_cons.mpr (Or.inr h)))]

theorem foldl_min_le (xs : List ℚ) : ∀ a : ℚ,
    xs.foldl min a ≤ a ∧ ∀ x ∈ xs, xs.foldl min a ≤ x := by
  induction xs with
  | nil => intro a; simp
  | cons b t ih =>
      intro a
      rw [List.foldl_cons]
      obtain ⟨h1, h2⟩ := ih (min a b)
      refine ⟨le_trans h1 (min_le_left a b), ?_⟩
      intro x hx
      rcases List.mem_cons.mp hx with rfl | hx'
      · exact le_trans h1 (min_le_right a x)
      · exact h2 x hx'

theorem foldl_max_mem (xs : List ℚ) : ∀ a : ℚ, xs.foldl max a ∈ a :: xs := by
  induction xs with
  | nil => intro a; simp
  | cons b t ih =>
      intro a
      rw [List.foldl_cons]
      rcases List.mem_cons.mp (ih (max a b)) with h | h
      · rcases max_choice a b with hm | hm <;> rw [hm] at h ⊢ <;> simp [h]
      · simp [List.mem_cons.mpr (Or.inr (List.mem_cons.mpr (Or.inr h)))]

theorem foldl_max_ge (xs : List ℚ) : ∀ a : ℚ,
    a ≤ xs.foldl max a ∧ ∀ x ∈ xs, x ≤ xs.foldl max a := by
  induction xs with
  | nil => intro a; simp
  | cons b t ih =>
      intro a
      rw [List.foldl_cons]
      obtain ⟨h1, h2⟩ := ih (max a b)
      refine ⟨le_trans (le_max_left a b) h1, ?_⟩
      intro x hx
      rcases List.mem_cons.mp hx with rfl | hx'
      · exact le_trans (le_max_right a x) h1
      · exact h2 x hx'

/-- Claim C8: for every non-empty duration sequence the stats reducer returns
`count` equal to the length and `mean`, `median`, `min`, `max` matching the
standard definitions (median over a sorted permutation); `std_dev` is 0
whenever there are fewer than 2 samples. -/
theorem c8_summary_stats (times : List ℚ) (h : times ≠ []) :
    (summaryOf times).count = times.length ∧
    (summaryOf times).mean = times.sum / (times.length : ℚ) ∧
    (∃ s : List ℚ, s.Perm times ∧ s.Sorted (· ≤ ·) ∧
      (summaryOf times).median =
        (if times.length % 2 = 1 then s.getD (times.length / 2) 0
         else (s.getD (times.length / 2 - 1) 0 + s.getD (times.length / 2) 0) / 2)) ∧
    ((summaryOf times).min ∈ times ∧ ∀ x ∈ times, (summaryOf times).min ≤ x) ∧
    ((summaryOf times).max ∈ times ∧ ∀ x ∈ times, x ≤ (summaryOf times).max) ∧
    (times.length < 2 → (summaryOf times).std_dev = 0) := by
  obtain ⟨y, ys, rfl⟩ := List.exists_cons_of_ne_nil h
  refine ⟨rfl, rfl, ?_, ?_, ?_, ?_⟩
  · exact ⟨pySorted (y :: ys), List.perm_insertionSort _ _,
      List.sorted_insertionSort _ _, rfl⟩
  · constructor
    · have := foldl_min_mem ys y
      simpa [summaryOf, pyMinList] using this
    · intro x hx
      rcases List.mem_cons.mp hx with hxy | hx'
      · rw [hxy]; exact (foldl_min_le ys y).1
      · exact (foldl_min_le ys y).2 x hx'
  · constructor
    · have := foldl_max_mem ys y
      simpa [summaryOf, pyMaxList] using this
    · intro x hx
      rcases List.mem_cons.mp hx with hxy | hx'
      · rw [hxy]; exact (foldl_max_ge ys y).1
      · exact (foldl_max_ge ys y).2 x hx'
  · intro hlt
    have hn : ¬ (1 < (y :: ys).length) := by
      simp only [List.length_cons] at hlt ⊢; omega
    simp only [summaryOf]
    rw [if_neg hn]

theorem c8_witness :
    (summaryOf [(3 : ℚ)]).count = [(3 : ℚ)].length ∧
    (summaryOf [(3 : ℚ)]).mean = [(3 : ℚ)].sum / (([(3 : ℚ)].length : ℕ) : ℚ) ∧
    (∃ s : List ℚ, s.Perm [(3 : ℚ)] ∧ s.Sorted (· ≤ ·) ∧
      (summaryOf [(3 : ℚ)]).median =
        (if [(3 : ℚ)].length % 2 = 1 then s.getD ([(3 : ℚ)].length / 2) 0
         else (s.getD ([(3 : ℚ)].length / 2 - 1) 0 + s.getD ([(3 : ℚ)].length / 2) 0) / 2)) ∧
    ((summaryOf [(3 : ℚ)]).min ∈ [(3 : ℚ)] ∧ ∀ x ∈ [(3 : ℚ)], (summaryOf [(3 : ℚ)]).min ≤ x) ∧
    ((summaryOf [(3 : ℚ)]).max ∈ [(3 : ℚ)] ∧ ∀ x ∈ [(3 : ℚ)], x ≤ (summaryOf [(3 : ℚ)]).max) ∧
    ([(3 : ℚ)].length < 2 → (summaryOf [(3 : ℚ)]).std_dev = 0) :=
  c8_summary_stats [(3 : ℚ)] (by decide)

/-!
## Tabular measurement reader (`build_visualiser.py`, `read_csv_data`)

The input is modelled as the sequence of already-split CSV rows (lists of
field strings) yielded by the `csv` reader.  `sys.exit(1)` with a printed
error is modelled as `Except.error`.  Parsed records are stored in
insertion-ordered dictionaries keyed by build-system name, where re-using a
key overwrites the stored value in place (Python `dict` semantics).
-/

/-- Python `str.strip()` whitespace set. -/
def pyIsWs (c : Char) : Bool :=
  c.toNat = 32 || c.toNat = 9 || c.toNat = 10 || c.toNat = 13 || c.toNat = 11 || c.toNat = 12

/-- Python `str.strip()`. -/
def pyStrip (s : String) : String :=
  String.mk (((s.data.dropWhile pyIsWs).reverse.dropWhile pyIsWs).reverse)

def isHexDigitB (c : Char) : Bool :=
  (48 ≤ c.toNat && c.toNat ≤ 57) || (65 ≤ c.toNat && c.toNat ≤ 70) ||
    (97 ≤ c.toNat && c.toNat ≤ 102)

/-- The color validation regex `^#([0-9A-Fa-f]{3}|[0-9A-Fa-f]{6})$`. -/
def validColor (color : String) : Bool :=
  match color.data with
  | '#' :: rest => rest.all isHexDigitB && (decide (rest.length = 3) || decide (rest.length = 6))
  | _ => false

def isDigitB (c : Char) : Bool := 48 ≤ c.toNat && c.toNat ≤ 57

def digitsVal (l : List Char) : Nat :=
  l.foldl (fun acc c => acc * 10 + (c.toNat - 48)) 0

def skipWs (l : List Char) : List Char := l.dropWhile pyIsWs

/-- One decimal number literal: optional sign, digits with optional decimal
point (`1`, `1.5`, `1.`, `.5`, `-2`). -/
def parseNumber (l : List Char) : Option (ℚ × List Char) :=
  let neg := match l with | '-' :: _ => true | _ => false
  let l1 := match l with | '-' :: rest => rest | _ => l
  let ds := l1.takeWhile isDigitB
  let r1 := l1.drop ds.length
  let sign : Int := if neg then -1 else 1
  match r1 with
  | '.' :: r2 =>
      let fs := r2.takeWhile isDigitB
      let r3 := r2.drop fs.length
      if ds.isEmpty && fs.isEmpty then none
      else some (mkRat (sign * (digitsVal ds * 10 ^ fs.length + digitsVal fs : Nat))
                   (10 ^ fs.length), r3)
  | _ =>
      if ds.isEmpty then none
      else some (mkRat (sign * (digitsVal ds : Nat)) 1, r1)

/-- Comma-separated numbers; fuel bounds the recursion by the input length. -/
def parseItems : Nat → List Char → Option (List ℚ × List Char)
  | 0, _ => none
  | fuel + 1, l =>
      match parseNumber (skipWs l) with
      | none => none
      | some (q, r) =>
          match skipWs r with
          | ',' :: r2 =>
              (match parseItems fuel r2 with
               | none => none
               | some (qs, r3) => some (q :: qs, r3))
          | r1 => some ([q], r1)

/-- Modelled library behaviour: `ast.literal_eval(measurements_str)` followed
by the `isinstance(list)` check and `float` conversion, restricted to
bracketed lists of decimal number literals (the shape the profiler writes
and the spec describes). -/
def parseMeasurements (s : String) : Option (List ℚ) :=
  match skipWs s.data with
  | '[' :: r =>
      (match skipWs r with
       | ']' :: r2 => if skipWs r2 = [] then some [] else none
       | r1 =>
          match parseItems (r1.length + 1) r1 with
          | none => none
          | some (qs, r2) =>
              match skipWs r2 with
              | ']' :: r3 => if skipWs r3 = [] then some qs else none
              | _ => none)
  | _ => none

/-- `read_csv_data._parse_row` on the three column fields: strip, check
non-empty name, check color format, parse the measurement list. -/
def parseRow (f0 f1 f2 : String) : Except String (String × String × List ℚ) :=
  let build_system := pyStrip f0
  let color := pyStrip f1
  let measurements_str := pyStrip f2
  if build_system = "" then .error "Error: Empty build_system name"
  else if validColor color = false then .error "Error: Invalid hex color"
  else
    match parseMeasurements measurements_str with
    | none => .error "Error parsing measurements"
    | some ms => .ok (build_system, color, ms)

/-- Python `dict` assignment `d[k] = v` on an insertion-ordered
association list. -/
def dictInsert {α : Type} (d : List (String × α)) (k : String) (v : α) :
    List (String × α) :=
  if d.any (fun p => decide (p.1 = k)) then
    d.map (fun p => if p.1 = k then (k, v) else p)
  else d ++ [(k, v)]

/-- The row loop of `read_csv_data`: column-count check, `_parse_row`, store
into the `data` and `colors` dictionaries. -/
def readRows : List (List String) → List (String × List ℚ) → List (String × String) →
    Except String (List (String × List ℚ) × List (String × String))
  | [], data, colors => .ok (data, colors)
  | row :: rest, data, colors =>
      match row with
      | [f0, f1, f2] =>
          (match parseRow f0 f1 f2 with
           | .error e => .error e
           | .ok (name, color, ms) =>
               readRows rest (dictInsert data name ms) (dictInsert colors name color))
      | _ => .error "Error: Row must have exactly 3 columns"

/-- The validations `read_csv_data` performs after the row loop: non-empty
data, all measurement counts equal to the first, non-zero count. -/
def postChecks (data : List (String × List ℚ)) (colors : List (String × String)) :
    Except String (List (String × List ℚ) × List (String × String)) :=
  if data.isEmpty then .error "Error: No build system data found in CSV file"
  else if (data.map (fun p => p.2.length)).all
      (fun c => decide (c = (data.map (fun p => p.2.length)).headD 0)) then
    if (data.map (fun p => p.2.length)).headD 0 = 0 then
      .error "Error: No build time data provided"
    else .ok (data, colors)
  else .error "Error: All build systems must have the same number of measurements"

/-- `read_csv_data`: parse all rows, then reject empty data, mismatched
measurement counts, and zero-length measurement lists. -/
def read_csv_data (rows : List (List String)) :
    Except String (List (String × List ℚ) × List (String × String)) :=
  match readRows rows [] [] with
  | .error e => .error e
  | .ok (data, colors) => postChecks data colors

/-- A row that passes the column-count check and `_parse_row`. -/
def rowOk (row : List String) : Prop :=
  ∃ f0 f1 f2 rec, row = [f0, f1, f2] ∧ parseRow f0 f1 f2 = Except.ok rec

/-- Claim C9, counterexample: two records sharing one build-system name but
carrying measurement lists of different lengths (1 and 2) are ACCEPTED by
`read_csv_data` — the later record overwrites the earlier in the dictionary,
so the equal-length check never sees the first list — although the claim
demands rejection of any input whose records do not all carry the same
measurement-list length. -/
theorem c9_counterexample :
    (parseMeasurements "[1.0]").map List.length = some 1 ∧
    (parseMeasurements "[1.0, 2.0]").map List.length = some 2 ∧
    read_csv_data [["A", "#abc", "[1.0]"], ["A", "#abc", "[1.0, 2.0]"]] =
      Except.ok ([("A", [1, 2])], [("A", "#abc")]) :=
  ⟨by decide, by decide, by rfl⟩

theorem dictInsert_fresh {α : Type} (d : List (String × α)) (k : String) (v : α)
    (h : ∀ p ∈ d, p.1 ≠ k) : dictInsert d k v = d ++ [(k, v)] := by
  unfold dictInsert
  have hany : d.any (fun p => decide (p.1 = k)) = false := by
    rw [List.any_eq_false]
    intro p hp
    simpa using h p hp
  simp [hany]

theorem readRows_ok (rows : List (List String))
    (recs : List (String × String × List ℚ))
    (hf : List.Forall₂ (fun row rec => ∃ f0 f1 f2,
        row = [f0, f1, f2] ∧ parseRow f0 f1 f2 = Except.ok rec) rows recs) :
    ∀ (data : List (String × List ℚ)) (colors : List (String × String)),
      (recs.map (fun r => r.1)).Nodup →
      (∀ r ∈ recs, ∀ p ∈ data, p.1 ≠ r.1) →
      (∀ r ∈ recs, ∀ p ∈ colors, p.1 ≠ r.1) →
      readRows rows data colors =
        .ok (data ++ recs.map (fun r => (r.1, r.2.2)),
             colors ++ recs.map (fun r => (r.1, r.2.1))) := by
  induction hf with
  | nil => intro data colors _ _ _; simp [readRows]
  | cons hhead htail ih =>
      rename_i row rec rows2 recs2
      intro data colors hnd hfd hfc
      obtain ⟨f0, f1, f2, rfl, hok⟩ := hhead
      obtain ⟨name, color, ms⟩ := rec
      have hfresh_d : ∀ p ∈ data, p.1 ≠ name :=
        fun p hp => hfd (name, color, ms) (by simp) p hp
      have hfresh_c : ∀ p ∈ colors, p.1 ≠ name :=
        fun p hp => hfc (name, color, ms) (by simp) p hp
      rw [List.map_cons] at hnd
      obtain ⟨hname_notin, hnd_tail⟩ := List.nodup_cons.mp hnd
      have hname_tail : ∀ r ∈ recs2, name ≠ r.1 := by
        intro r hr hEq
        exact hname_notin (hEq ▸ List.mem_map.mpr ⟨r, hr, rfl⟩)
      have step : readRows ([f0, f1, f2] :: rows2) data colors =
          readRows rows2 (dictInsert data name ms) (dictInsert colors name color) := by
        simp [readRows, hok]
      rw [step, dictInsert_fresh data name ms hfresh_d,
          dictInsert_fresh colors name color hfresh_c,
          ih (data ++ [(name, ms)]) (colors ++ [(name, color)])
            hnd_tail
            (by
              intro r hr p hp
              rcases List.mem_append.mp hp with hp' | hp'
              · exact hfd r (by simp [hr]) p hp'
              · have : p = (name, ms) := by simpa using hp'
                rw [this]
                exact hname_tail r hr)
            (by
              intro r hr p hp
              rcases List.mem_append.mp hp with hp' | hp'
              · exact hfc r (by simp [hr]) p hp'
              · have : p = (name, color) := by simpa using hp'
                rw [this]
                exact hname_tail r hr)]
      simp

theorem readRows_error_of_bad (rows : List (List String)) :
    (∃ row ∈ rows, ¬ rowOk row) →
    ∀ (data : List (String × List ℚ)) (colors : List (String × String)),
      ∃ msg, readRows rows data colors = .error msg := by
  induction rows with
  | nil => intro ⟨row, hm, _⟩; simp at hm
  | cons r rest ih =>
      intro h data colors
      rcases r with _ | ⟨f0, _ | ⟨f1, _ | ⟨f2, _ | ⟨f3, r4⟩⟩⟩⟩
      · exact ⟨"Error: Row must have exactly 3 columns", rfl⟩
      · exact ⟨"Error: Row must have exactly 3 columns", rfl⟩
      · exact ⟨"Error: Row must have exactly 3 columns", rfl⟩
      · cases hok : parseRow f0 f1 f2 with
        | error e => exact ⟨e, by simp [readRows, hok]⟩
        | ok rec =>
            obtain ⟨row, hmem, hbad⟩ := h
            rcases List.mem_cons.mp hmem with hr | hmem'
            · exact absurd ⟨f0, f1, f2, rec, hr, hok⟩ hbad
            · obtain ⟨name, color, ms⟩ := rec
              obtain ⟨msg, hmsg⟩ := ih ⟨row, hmem', hbad⟩
                (dictInsert data name ms) (dictInsert colors name color)
              exact ⟨msg, by simp [readRows, hok, hmsg]⟩
      · exact ⟨"Error: Row must have exactly 3 columns", rfl⟩

theorem postChecks_ok (data : List (String × List ℚ)) (colors : List (String × String))
    (L : ℕ) (hne : data ≠ []) (hlen : ∀ p ∈ data, p.2.length = L) (hL : L ≠ 0) :
    postChecks data colors = .ok (data, colors) := by
  obtain ⟨p0, rest, rfl⟩ := List.exists_cons_of_ne_nil hne
  unfold postChecks
  have h0 : (p0 :: rest).isEmpty = false := rfl
  have hhead : ((p0 :: rest).map (fun p => p.2.length)).headD 0 = L := by
    simp [hlen p0 (by simp)]
  have hall : ((p0 :: rest).map (fun p => p.2.length)).all
      (fun c => decide (c = ((p0 :: rest).map (fun p => p.2.length)).headD 0)) = true := by
    rw [List.all_eq_true]
    intro c hc
    obtain ⟨p, hp, hpc⟩ := List.mem_map.mp hc
    simp [← hpc, hhead, hlen p hp, hlen p0 (List.mem_cons_self p0 rest)]
  rw [h0]
  simp only [Bool.false_eq_true, if_false, hall, if_true]
  rw [hhead, if_neg hL]

/-- Claim C9 (amended): the reader rejects, with a non-zero exit, any input
containing a record with a bad column count, empty name, invalid color or
unparseable measurement list; and it accepts an input of well-formed records
provided additionally that the build-system names are pairwise distinct
(records sharing a name overwrite each other in the dictionary), that there
is at least one record, and that the common measurement length is non-zero,
returning the (name, durations) and (name, color) records in order. -/
theorem c9_reader_amended :
    (∀ (rows : List (List String)) (recs : List (String × String × List ℚ)) (L : ℕ),
      List.Forall₂ (fun row rec => ∃ f0 f1 f2,
          row = [f0, f1, f2] ∧ parseRow f0 f1 f2 = Except.ok rec) rows recs →
      (recs.map (fun r => r.1)).Nodup →
      (∀ r ∈ recs, r.2.2.length = L) →
      rows ≠ [] → L ≠ 0 →
      read_csv_data rows =
        .ok (recs.map (fun r => (r.1, r.2.2)), recs.map (fun r => (r.1, r.2.1)))) ∧
    (∀ rows : List (List String), (∃ row ∈ rows, ¬ rowOk row) →
      ∃ msg, read_csv_data rows = .error msg) := by
  constructor
  · intro rows recs L hf hnd hlen hne hL
    have h0 := readRows_ok rows recs hf [] [] hnd (by simp) (by simp)
    have hrecne : recs ≠ [] := by
      intro h
      subst h
      cases hf
      exact hne rfl
    unfold read_csv_data
    rw [h0]
    simp only [List.nil_append]
    exact postChecks_ok _ _ L
      (by
        intro h
        exact hrecne (List.map_eq_nil_iff.mp h))
      (by
        intro p hp
        obtain ⟨r, hr, hpr⟩ := List.mem_map.mp hp
        rw [← hpr]
        exact hlen r hr)
      hL
  · intro rows hbad
    obtain ⟨msg, hmsg⟩ := readRows_error_of_bad rows hbad [] []
    exact ⟨msg, by unfold read_csv_data; rw [hmsg]⟩

theorem c9_witness :
    read_csv_data [["A", "#abc", "[1.5]"]] =
      Except.ok ([("A", [mkRat 3 2])], [("A", "#abc")]) ∧
    (∃ msg, read_csv_data [["A", "bad", "[1]"]] = Except.error msg) := by
  constructor
  · exact (c9_reader_amended).1 [["A", "#abc", "[1.5]"]] [("A", "#abc", [mkRat 3 2])] 1
      (List.Forall₂.cons ⟨"A", "#abc", "[1.5]", rfl, rfl⟩ List.Forall₂.nil)
      (by simp)
      (by
        intro r hr
        rw [List.mem_singleton] at hr
        subst hr
        rfl)
      (by simp)
      (by decide)
  · refine (c9_reader_amended).2 [["A", "bad", "[1]"]] ⟨["A", "bad", "[1]"], by simp, ?_⟩
    rintro ⟨f0, f1, f2, rec, heq, hok⟩
    obtain ⟨h1, h2, h3, -⟩ : "A" = f0 ∧ "bad" = f1 ∧ "[1]" = f2 ∧ True := by
      simpa using heq
    subst h1
    subst h2
    subst h3
    have hpe : parseRow "A" "bad" "[1]" = Except.error "Error: Invalid hex color" := rfl
    rw [hpe] at hok
    exact Except.noConfusion hok

/-!
## Benchmark orchestrator (`build_script.py` `__main__`, lines 241-253)

The timed-iteration loop appends a mutation to every eligible source file,
moves `resources.properties` out of `res/raw` and back, and runs the three
builds, collecting each duration; the whole loop sits in a `try` whose
`finally` calls `kicker.cleanup_all_dirty()`, after which any exception is
re-raised.  Build outcomes are an oracle indexed by iteration and by build
position (0 = Bazel, 1 = Gradle, 2 = Buck2).
-/

/-- Substring exclusion marker for generated sources. -/
def dbMarker : String := "/_generated_databinding/"

/-- `pat` is a prefix of `l`. -/
def isSubAt : List Char → List Char → Bool
  | [], _ => true
  | _ :: _, [] => false
  | p :: ps, c :: cs => decide (p = c) && isSubAt ps cs

/-- Python `pat in l` substring test. -/
def hasSub (pat : List Char) : List Char → Bool
  | [] => pat.isEmpty
  | c :: cs => isSubAt pat (c :: cs) || hasSub pat cs

def resPath : String :=
  "/path/apps-android-wikipedia-copy/app/src/main/res/resources.properties"

def rawPath : String :=
  "/path/apps-android-wikipedia-copy/app/src/main/res/raw/resources.properties"

/-- `shutil.move`: raises `FileNotFoundError` when the source is missing. -/
def moveFile (src dst : String) (fs : String → Option (List Nat)) :
    (String → Option (List Nat)) × Option PyErr :=
  match fs src with
  | none => (fs, some .fileNotFound)
  | some b => (fsUpdate (fsUpdate fs src none) dst (some b), none)

/-- Orchestrator state: kicker (and file system) plus the three
measurement sequences. -/
structure OState where
  ks : KState
  bazelTimes : List ℚ
  gradleTimes : List ℚ
  buckTimes : List ℚ

/-- The inner loop `for file in source_files: ... kicker.append(file)` with
the generated-databinding exclusion; an append exception aborts the loop. -/
def appendFiles (names : Nat → String) : List String → KState → KState × Option PyErr
  | [], s => (s, none)
  | f :: rest, s =>
      if hasSub dbMarker.data f.data then appendFiles names rest s
      else
        match kickerAppend names s f with
        | (s1, none) => appendFiles names rest s1
        | (s1, some e) => (s1, some e)

/-- A timed build: its duration, or the `RuntimeError` raised on non-zero
exit. -/
def runBuild (o : ExecOutcome) : Except PyErr ℚ :=
  if o.returncode = 0 then .ok o.duration else .error (.runtimeError o.stdout)

/-- One iteration of the timed loop: mutate all eligible sources, move the
resources file, run Bazel, move it back, run Gradle, run Buck2. -/
def iterationStep (names : Nat → String) (oc : Nat → ExecOutcome) (src : List String)
    (s : OState) : OState × Option PyErr :=
  match appendFiles names src s.ks with
  | (ks1, some e) => ({ s with ks := ks1 }, some e)
  | (ks1, none) =>
      match moveFile resPath rawPath ks1.fs with
      | (_, some e) => ({ s with ks := ks1 }, some e)
      | (fs2, none) =>
          match runBuild (oc 0) with
          | .error e => ({ s with ks := { ks1 with fs := fs2 } }, some e)
          | .ok t0 =>
              match moveFile rawPath resPath fs2 with
              | (_, some e) =>
                  ({ s with ks := { ks1 with fs := fs2 },
                            bazelTimes := s.bazelTimes ++ [t0] }, some e)
              | (fs3, none) =>
                  match runBuild (oc 1) with
                  | .error e =>
                      ({ s with ks := { ks1 with fs := fs3 },
                                bazelTimes := s.bazelTimes ++ [t0] }, some e)
                  | .ok t1 =>
                      match runBuild (oc 2) with
                      | .error e =>
                          ({ s with ks := { ks1 with fs := fs3 },
                                    bazelTimes := s.bazelTimes ++ [t0],
                                    gradleTimes := s.gradleTimes ++ [t1] }, some e)
                      | .ok t2 =>
                          ({ s with ks := { ks1 with fs := fs3 },
                                    bazelTimes := s.bazelTimes ++ [t0],
                                    gradleTimes := s.gradleTimes ++ [t1],
                                    buckTimes := s.buckTimes ++ [t2] }, none)

/-- The `for _ in range(build_count)` loop; the first `Nat` is the current
iteration index, the second the remaining count. -/
def runLoop (names : Nat → String) (oracle : Nat → Nat → ExecOutcome)
    (src : List String) : Nat → Nat → OState → OState × Option PyErr
  | _, 0, s => (s, none)
  | i, Nat.succ m, s =>
      match iterationStep names (oracle i) src s with
      | (s1, none) => runLoop names oracle src (i + 1) m s1
      | (s1, some e) => (s1, some e)

/-- The `try ... finally kicker.cleanup_all_dirty()` of the orchestrator:
cleanup runs on both the normal and the error exit of the loop, and the
exception (if any) is re-raised afterwards. -/
def orchestratorMain (names : Nat → String) (oracle : Nat → Nat → ExecOutcome)
    (src : List String) (n : Nat) (s0 : OState) : OState × Option PyErr :=
  let r := runLoop names oracle src 0 n s0
  ({ r.1 with ks := cleanupAllDirty names r.1.ks }, r.2)

/-- Loop invariant relating the current kicker state to the pre-run file
contents `o`: dirty files carry their original bytes plus one pad of the
expected removal length; all other files (apart from the moved resources
file) are untouched. -/
def KInv (o : String → Option (List Nat)) (s : KState) : Prop :=
  s.dirty.Nodup ∧
  (∀ f ∈ s.dirty, supportedFile f = true ∧
    ∃ ob pad, o f = some ob ∧ s.fs f = some (ob ++ pad) ∧
      pad.length = removalLenOf f) ∧
  (∀ f, f ∉ s.dirty → f ≠ resPath → f ≠ rawPath → s.fs f = o f)

theorem supported_resPath : supportedFile resPath = false := by decide

theorem supported_rawPath : supportedFile rawPath = false := by decide

theorem supported_ne_resraw {f : String} (h : supportedFile f = true) :
    f ≠ resPath ∧ f ≠ rawPath := by
  constructor
  · intro he
    rw [he, supported_resPath] at h
    exact Bool.noConfusion h
  · intro he
    rw [he, supported_rawPath] at h
    exact Bool.noConfusion h

theorem KInv_append (names : Nat → String) (o : String → Option (List Nat))
    (s : KState) (file : String) (hn : ∀ i, validName (names i))
    (hinv : KInv o s) : KInv o (kickerAppend names s file).1 := by
  obtain ⟨hnd, hdirty, hclean⟩ := hinv
  cases hsup : supportedFile file with
  | false =>
      obtain ⟨msg, hmsg⟩ := kickerAppend_unsupported names s file hsup
      rw [hmsg]
      exact ⟨hnd, hdirty, hclean⟩
  | true =>
      by_cases hd : file ∈ s.dirty
      · obtain ⟨-, ob, pad, hob, hfs, hpad⟩ := hdirty file hd
        rw [kickerAppend_dirty names s file ob pad hsup (hn _) hfs hpad hd]
        refine ⟨hnd, ?_, ?_⟩
        · intro g hg
          by_cases hgf : g = file
          · subst hgf
            exact ⟨hsup, ob, padOf names s.ctr g, hob, by simp,
                   padOf_length names s.ctr g (hn _)⟩
          · obtain ⟨hgs, ob2, pad2, hob2, hfs2, hpad2⟩ := hdirty g hg
            refine ⟨hgs, ob2, pad2, hob2, ?_, hpad2⟩
            show fsUpdate (fsUpdate s.fs file (some ob)) file
                   (some (ob ++ padOf names s.ctr file)) g = some (ob2 ++ pad2)
            rw [fsUpdate_other _ _ _ _ hgf, fsUpdate_other _ _ _ _ hgf]
            exact hfs2
        · intro g hg h1 h2
          have hgf : g ≠ file := fun hEq => hg (hEq ▸ hd)
          show fsUpdate (fsUpdate s.fs file (some ob)) file
                 (some (ob ++ padOf names s.ctr file)) g = o g
          rw [fsUpdate_other _ _ _ _ hgf, fsUpdate_other _ _ _ _ hgf]
          exact hclean g hg h1 h2
      · cases hfs : s.fs file with
        | none =>
            obtain ⟨k, hk⟩ := kickerAppend_missing names s file hsup hfs
            rw [hk]
            exact ⟨hnd, hdirty, hclean⟩
        | some b =>
            have hob : o file = some b := by
              rw [← hfs]
              exact (hclean file hd (supported_ne_resraw hsup).1
                (supported_ne_resraw hsup).2).symm
            rw [kickerAppend_clean names s file b hsup hfs hd]
            refine ⟨?_, ?_, ?_⟩
            · exact List.nodup_cons.mpr ⟨hd, hnd⟩
            · intro g hg
              rcases List.mem_cons.mp hg with hgf | hg'
              · subst hgf
                exact ⟨hsup, b, padOf names s.ctr g, hob, by simp,
                       padOf_length names s.ctr g (hn _)⟩
              · have hgf : g ≠ file := fun hEq => hd (hEq ▸ hg')
                obtain ⟨hgs, ob2, pad2, hob2, hfs2, hpad2⟩ := hdirty g hg'
                refine ⟨hgs, ob2, pad2, hob2, ?_, hpad2⟩
                show fsUpdate s.fs file (some (b ++ padOf names s.ctr file)) g
                       = some (ob2 ++ pad2)
                rw [fsUpdate_other _ _ _ _ hgf]
                exact hfs2
            · intro g hg h1 h2
              have hgf : g ≠ file := fun hEq => hg (hEq ▸ List.mem_cons_self _ _)
              have hg' : g ∉ s.dirty := fun hm => hg (List.mem_cons.mpr (Or.inr hm))
              show fsUpdate s.fs file (some (b ++ padOf names s.ctr file)) g = o g
              rw [fsUpdate_other _ _ _ _ hgf]
              exact hclean g hg' h1 h2

theorem KInv_appendFiles (names : Nat → String) (o : String → Option (List Nat))
    (hn : ∀ i, validName (names i)) :
    ∀ (src : List String) (s : KState), KInv o s →
      KInv o (appendFiles names src s).1 := by
  intro src
  induction src with
  | nil => intro s h; exact h
  | cons f rest ih =>
      intro s h
      unfold appendFiles
      by_cases hdb : hasSub dbMarker.data f.data = true
      · rw [if_pos hdb]
        exact ih s h
      · rw [if_neg hdb]
        have h1 := KInv_append names o s f hn h
        cases hres : kickerAppend names s f with
        | mk s1 e =>
            rw [hres] at h1
            cases e with
            | none => exact ih s1 h1
            | some e' => exact h1

theorem KInv_fs_eq_off_resraw (o : String → Option (List Nat)) (s : KState)
    (fs' : String → Option (List Nat))
    (h : ∀ f, f ≠ resPath → f ≠ rawPath → fs' f = s.fs f)
    (hinv : KInv o s) : KInv o { s with fs := fs' } := by
  obtain ⟨hnd, hdirty, hclean⟩ := hinv
  refine ⟨hnd, ?_, ?_⟩
  · intro f hf
    obtain ⟨hs, ob, pad, hob, hfs, hpad⟩ := hdirty f hf
    exact ⟨hs, ob, pad, hob,
      by rw [show ({ s with fs := fs' } : KState).fs f = fs' f from rfl,
             h f (supported_ne_resraw hs).1 (supported_ne_resraw hs).2]; exact hfs,
      hpad⟩
  · intro f hf h1 h2
    show fs' f = o f
    rw [h f h1 h2]
    exact hclean f hf h1 h2

theorem moveFile_off_resraw (src dst : String)
    (fs : String → Option (List Nat))
    (hsrc : src = resPath ∨ src = rawPath) (hdst : dst = resPath ∨ dst = rawPath) :
    ∀ f, f ≠ resPath → f ≠ rawPath → (moveFile src dst fs).1 f = fs f := by
  intro f h1 h2
  have hfs : f ≠ src := by rcases hsrc with rfl | rfl <;> assumption
  have hfd : f ≠ dst := by rcases hdst with rfl | rfl <;> assumption
  unfold moveFile
  cases fs src with
  | none => rfl
  | some b =>
      show fsUpdate (fsUpdate fs src none) dst (some b) f = fs f
      rw [fsUpdate_other _ _ _ _ hfd, fsUpdate_other _ _ _ _ hfs]

theorem KInv_iterationStep (names : Nat → String) (o : String → Option (List Nat))
    (oc : Nat → ExecOutcome) (src : List String) (hn : ∀ i, validName (names i))
    (s : OState) (hinv : KInv o s.ks) :
    KInv o (iterationStep names oc src s).1.ks := by
  unfold iterationStep
  have h1 := KInv_appendFiles names o hn src s.ks hinv
  cases ha : appendFiles names src s.ks with
  | mk ks1 e1 =>
      rw [ha] at h1
      cases e1 with
      | some e => simpa using h1
      | none =>
          dsimp only
          have hm1 := moveFile_off_resraw resPath rawPath ks1.fs (Or.inl rfl) (Or.inr rfl)
          cases hmv : moveFile resPath rawPath ks1.fs with
          | mk fs2 e2 =>
              rw [hmv] at hm1
              cases e2 with
              | some e => simpa using h1
              | none =>
                  dsimp only
                  have h2 : KInv o { ks1 with fs := fs2 } :=
                    KInv_fs_eq_off_resraw o ks1 fs2 hm1 h1
                  cases hb0 : runBuild (oc 0) with
                  | error e => simpa using h2
                  | ok t0 =>
                      dsimp only
                      have hm2 := moveFile_off_resraw rawPath resPath fs2
                        (Or.inr rfl) (Or.inl rfl)
                      cases hmv2 : moveFile rawPath resPath fs2 with
                      | mk fs3 e3 =>
                          rw [hmv2] at hm2
                          cases e3 with
                          | some e => simpa using h2
                          | none =>
                              dsimp only
                              have h3 : KInv o { ks1 with fs := fs3 } :=
                                KInv_fs_eq_off_resraw o ks1 fs3
                                  (fun f hf1 hf2 =>
                                    (hm2 f hf1 hf2).trans (hm1 f hf1 hf2)) h1
                              cases hb1 : runBuild (oc 1) with
                              | error e => simpa using h3
                              | ok t1 =>
                                  dsimp only
                                  cases hb2 : runBuild (oc 2) with
                                  | error e => simpa using h3
                                  | ok t2 => simpa using h3

theorem KInv_runLoop (names : Nat → String) (o : String → Option (List Nat))
    (oracle : Nat → Nat → ExecOutcome) (src : List String)
    (hn : ∀ i, validName (names i)) :
    ∀ (m i : Nat) (s : OState), KInv o s.ks →
      KInv o (runLoop names oracle src i m s).1.ks := by
  intro m
  induction m with
  | zero => intro i s h; exact h
  | succ m ih =>
      intro i s h
      unfold runLoop
      have h1 := KInv_iterationStep names o (oracle i) src hn s h
      cases hstep : iterationStep names (oracle i) src s with
      | mk s1 e =>
          rw [hstep] at h1
          cases e with
          | none => exact ih (i + 1) s1 h1
          | some e' => exact h1

theorem cleanupAll_restores (names : Nat → String) (o : String → Option (List Nat))
    (hn : ∀ i, validName (names i)) :
    ∀ (l : List String) (s : KState),
      l.Nodup →
      (∀ f ∈ l, supportedFile f = true ∧
        ∃ ob pad, o f = some ob ∧ s.fs f = some (ob ++ pad) ∧
          pad.length = removalLenOf f) →
      (∀ g, g ∉ l → (cleanupAll names s l).fs g = s.fs g) ∧
      (∀ f ∈ l, (cleanupAll names s l).fs f = o f) := by
  intro l
  induction l with
  | nil => intro s _ _; exact ⟨fun g _ => rfl, by simp⟩
  | cons f rest ih =>
      intro s hnd hl
      obtain ⟨hs, ob, pad, hob, hfs, hpad⟩ := hl f (by simp)
      have hstep : kickerCleanup names s f =
          { s with fs := fsUpdate s.fs f (some ob), ctr := s.ctr + 1 } := by
        unfold kickerCleanup
        exact remove_restore names s f ob pad hs (hn _) hfs hpad
      obtain ⟨hfn, hnd'⟩ := List.nodup_cons.mp hnd
      have hl' : ∀ g ∈ rest, supportedFile g = true ∧
          ∃ ob2 pad2, o g = some ob2 ∧
            ({ s with fs := fsUpdate s.fs f (some ob), ctr := s.ctr + 1 } : KState).fs g
              = some (ob2 ++ pad2) ∧ pad2.length = removalLenOf g := by
        intro g hg
        obtain ⟨hgs, ob2, pad2, hob2, hfs2, hpad2⟩ := hl g (by simp [hg])
        have hgf : g ≠ f := fun hEq => hfn (hEq ▸ hg)
        refine ⟨hgs, ob2, pad2, hob2, ?_, hpad2⟩
        show fsUpdate s.fs f (some ob) g = some (ob2 ++ pad2)
        rw [fsUpdate_other _ _ _ _ hgf]
        exact hfs2
      obtain ⟨ih1, ih2⟩ := ih { s with fs := fsUpdate s.fs f (some ob),
                                        ctr := s.ctr + 1 } hnd' hl'
      have hcons : cleanupAll names s (f :: rest) =
          cleanupAll names { s with fs := fsUpdate s.fs f (some ob),
                                     ctr := s.ctr + 1 } rest := by
        show cleanupAll names (kickerCleanup names s f) rest = _
        rw [hstep]
      constructor
      · intro g hg
        have hgf : g ≠ f := fun hEq => hg (hEq ▸ List.mem_cons_self _ _)
        have hgr : g ∉ rest := fun hm => hg (List.mem_cons.mpr (Or.inr hm))
        rw [hcons, ih1 g hgr]
        show fsUpdate s.fs f (some ob) g = s.fs g
        rw [fsUpdate_other _ _ _ _ hgf]
      · intro g hg
        rcases List.mem_cons.mp hg with hgf | hgr
        · subst hgf
          rw [hcons, ih1 g hfn]
          show fsUpdate s.fs g (some ob) g = o g
          rw [fsUpdate_same, hob]
        · rw [hcons]
          exact ih2 g hgr

theorem cleanupAllDirty_restores (names : Nat → String)
    (o : String → Option (List Nat)) (s : KState)
    (hn : ∀ i, validName (names i)) (hinv : KInv o s) :
    ∀ f, f ≠ resPath → f ≠ rawPath → (cleanupAllDirty names s).fs f = o f := by
  intro f h1 h2
  obtain ⟨hnd, hdirty, hclean⟩ := hinv
  obtain ⟨r1, r2⟩ := cleanupAll_restores names o hn s.dirty s hnd hdirty
  show (cleanupAll names s s.dirty).fs f = o f
  by_cases hf : f ∈ s.dirty
  · exact r2 f hf
  · rw [r1 f hf]
    exact hclean f hf h1 h2

/-- Claim C2: whatever the build outcomes (including failures at any point of
any iteration), the orchestrator runs `cleanup_all_dirty` on every exit path
of the loop: afterwards the dirty set is empty, every source file other than
the deliberately moved `resources.properties` holds its pre-run bytes again,
and the loop's exception (if any) is re-raised unchanged after cleanup. -/
theorem c2_cleanup_runs_on_every_exit_path (names : Nat → String)
    (oracle : Nat → Nat → ExecOutcome) (src : List String) (n : Nat) (s0 : OState)
    (hnames : ∀ i, validName (names i))
    (hd0 : s0.ks.dirty = []) :
    (orchestratorMain names oracle src n s0).1.ks.dirty = [] ∧
    (orchestratorMain names oracle src n s0).2 = (runLoop names oracle src 0 n s0).2 ∧
    (∀ f, f ≠ resPath → f ≠ rawPath →
      (orchestratorMain names oracle src n s0).1.ks.fs f = s0.ks.fs f) := by
  have hinv0 : KInv s0.ks.fs s0.ks := by
    refine ⟨?_, ?_, ?_⟩
    · rw [hd0]; exact List.nodup_nil
    · intro f hf
      rw [hd0] at hf
      exact absurd hf (List.not_mem_nil f)
    · intro f _ _ _; rfl
  have hloop := KInv_runLoop names s0.ks.fs oracle src hnames n 0 s0 hinv0
  refine ⟨rfl, rfl, ?_⟩
  intro f h1 h2
  exact cleanupAllDirty_restores names s0.ks.fs
    (runLoop names oracle src 0 n s0).1.ks hnames hloop f h1 h2

/-- Witness fixtures for the orchestrator: one eligible source file, a
resources file, and an oracle whose Gradle build (position 1) always fails. -/
def wSrc : List String := ["a.py"]

def wOracle : Nat → Nat → ExecOutcome :=
  fun _ j => { returncode := if j = 1 then 1 else 0, stdout := "boom", duration := 1 }

def wOS : OState :=
  { ks := { fs := fun p => if p = "a.py" then some [65, 66]
                           else if p = resPath then some [1, 2] else none,
            dirty := [], ctr := 0 },
    bazelTimes := [], gradleTimes := [], buckTimes := [] }

theorem c2_witness :
    (orchestratorMain wNames wOracle wSrc 1 wOS).1.ks.dirty = [] ∧
    (orchestratorMain wNames wOracle wSrc 1 wOS).2 = (runLoop wNames wOracle wSrc 0 1 wOS).2 ∧
    (orchestratorMain wNames wOracle wSrc 1 wOS).1.ks.fs "a.py" = wOS.ks.fs "a.py" :=
  have h := c2_cleanup_runs_on_every_exit_path wNames wOracle wSrc 1 wOS
    (fun _ => validName_dummy) rfl
  ⟨h.1, h.2.1, h.2.2 "a.py" (by decide) (by decide)⟩
